import Mathlib

/-!
A shallow embedding of camera_publisher.cpp

The node of `05.Color block recognition/camera_publisher.cpp` opens a V4L2
camera, grabs one frame per timer tick, writes the frame to a fixed path at
most once per `save_interval_`, and republishes every frame.

Modelling conventions.
* Time stamps (`rclcpp::Time`) and durations (`rclcpp::Duration`) are integer
  nanosecond counts, as in rclcpp; they are kept in `Int`.  The stamps come
  from `this->now()`, whose values are far inside the `int64` range, so the
  subtraction `now - last_save_time_` is the mathematical one.
* Everything the node reads from its environment (whether a device opens, the
  frame a read delivers, the clock, the result of `imwrite`) is an explicit
  input; everything it does to its environment is an entry of an effect trace.
-/

namespace CameraPublisher

/-! ## Data model -/

/-- An image buffer (`cv::Mat`), reduced to its pixel payload. -/
structure Mat where
  data : List Nat
deriving DecidableEq, Repr

/-- `Mat::empty()`: the buffer holds no element. -/
def Mat.empty (m : Mat) : Bool := m.data.isEmpty

/-- The capture properties the node touches. -/
inductive CapProp where
  | fourcc
  | frameWidth
  | frameHeight
  | fps
  | bufferSize
deriving DecidableEq, Repr

/-- Severity of a log line. -/
inductive LogLevel where
  | info
  | warn
  | error
  | fatal
deriving DecidableEq, Repr

/-- The message handed to `image_pub_.publish`. -/
structure ImageMsg where
  stamp : Int
  frame_id : String
  encoding : String
  image : Mat
deriving DecidableEq, Repr

/-- What the node does to the outside world, one entry per call. -/
inductive Effect where
  | createPublisher (topic : String)
  | openDevice (index : Nat)
  | setProp (prop : CapProp) (value : Int)
  | getProp (prop : CapProp)
  | readFrame
  | imwrite (path : String) (img : Mat) (ok : Bool)
  | publish (msg : ImageMsg)
  | log (level : LogLevel) (throttleMs : Option Nat)
  | createTimer (periodMs : Nat)
  | shutdown
  | release
deriving DecidableEq, Repr

/-- `cv::VideoCapture`: the index of the device it holds, if any. -/
structure VideoCapture where
  opened : Option Nat
deriving DecidableEq, Repr

/-- `VideoCapture::isOpened()`. -/
def VideoCapture.isOpened (cap : VideoCapture) : Bool := cap.opened.isSome

/-- The camera stack as seen during start-up: which indices open, what the
`set` calls answer, and the frame the first read on a device delivers. -/
structure Hardware where
  opens : Nat → Bool
  setOk : CapProp → Bool
  testFrame : Nat → Mat

/-- `cap_.open(i, CAP_V4L2)`: whatever was held is dropped; the capture holds
device `i` afterwards exactly when that device opens. -/
def VideoCapture.openIndex (hw : Hardware) (_cap : VideoCapture) (i : Nat) : VideoCapture :=
  if hw.opens i then { opened := some i } else { opened := none }

/-- The members of `CameraPublisherNode`. -/
structure CameraPublisherNode where
  cap_ : VideoCapture
  timer_ : Option Nat
  save_path_ : String
  save_interval_ : Int
  last_save_time_ : Int
deriving DecidableEq, Repr

/-- The duration literal `1s`, in nanoseconds. -/
def oneSecond : Int := 1000000000

/-- One millisecond, in nanoseconds. -/
def oneMilli : Int := 1000000

/-- The timer period `33ms`, in milliseconds. -/
def timerPeriodMs : Nat := 33

/-- The path the constructor stores in `save_path_`. -/
def savePath : String := "/home/zhoujiang/桌面/camera_live.jpg"

/-- What one activation of `capture_and_publish` reads from its environment:
the frame `cap_ >> frame` delivers, the clock at the gate (`now`), the answer
of `imwrite` should it be called, and the clock when the message is stamped. -/
structure TickInput where
  frame : Mat
  now : Int
  save_success : Bool
  stamp : Int
deriving DecidableEq, Repr

/-! ## Operations -/

/-- The probing loop of `init_camera`, `for (int i = 0; i < 4; i++)`, over the
list of its indices; `break` on the first index that opens. -/
def probeLoop (hw : Hardware) : List Nat → VideoCapture → VideoCapture × List Effect
  | [], cap => (cap, [])
  | i :: rest, cap =>
    let cap1 := cap.openIndex hw i
    if cap1.isOpened then
      (cap1, [Effect.openDevice i, Effect.log LogLevel.info none])
    else
      let r := probeLoop hw rest cap1
      (r.1, Effect.openDevice i :: r.2)

/-- The five `cap_.set` calls followed by the three `cap_.get` calls and the
report line; the answers of the `set` calls are dropped. -/
def configureEffects : List Effect :=
  [ Effect.setProp CapProp.fourcc 1448695129,
    Effect.setProp CapProp.frameWidth 640,
    Effect.setProp CapProp.frameHeight 480,
    Effect.setProp CapProp.fps 30,
    Effect.setProp CapProp.bufferSize 1,
    Effect.getProp CapProp.fps,
    Effect.getProp CapProp.frameWidth,
    Effect.getProp CapProp.frameHeight,
    Effect.log LogLevel.info none ]

/-- `CameraPublisherNode::init_camera`: the result, the capture afterwards and
the calls made. -/
def init_camera (hw : Hardware) (cap : VideoCapture) : Bool × VideoCapture × List Effect :=
  let p := probeLoop hw (List.range 4) cap
  match p.1.opened with
  | none =>
    (false, p.1, p.2 ++ [Effect.log LogLevel.fatal none, Effect.log LogLevel.fatal none])
  | some dev =>
    let test_frame := hw.testFrame dev
    if test_frame.empty then
      (false, p.1, p.2 ++ configureEffects ++ [Effect.readFrame, Effect.log LogLevel.error none])
    else
      (true, p.1, p.2 ++ configureEffects ++ [Effect.readFrame])

/-- `CameraPublisherNode::capture_and_publish`: the node afterwards and the
calls made during the activation, in order. -/
def capture_and_publish (s : CameraPublisherNode) (inp : TickInput) :
    CameraPublisherNode × List Effect :=
  if inp.frame.empty then
    (s, [Effect.readFrame, Effect.log LogLevel.warn (some 1000)])
  else
    let msg : ImageMsg :=
      { stamp := inp.stamp, frame_id := "camera_frame", encoding := "bgr8", image := inp.frame }
    if inp.now - s.last_save_time_ ≥ s.save_interval_ then
      ({ s with last_save_time_ := inp.now },
       [Effect.readFrame,
        Effect.imwrite s.save_path_ inp.frame inp.save_success,
        Effect.log (if inp.save_success then LogLevel.info else LogLevel.error) (some 1000),
        Effect.publish msg])
    else
      (s, [Effect.readFrame, Effect.publish msg])

/-- The outcome of the constructor: the node, whether the rclcpp context is
still valid, and the calls made. -/
structure Constructed where
  node : CameraPublisherNode
  contextOk : Bool
  trace : List Effect

/-- `CameraPublisherNode::CameraPublisherNode()`, run when the clock reads `t0`. -/
def construct (hw : Hardware) (t0 : Int) : Constructed :=
  let node0 : CameraPublisherNode :=
    { cap_ := { opened := none }, timer_ := none, save_path_ := "",
      save_interval_ := oneSecond, last_save_time_ := t0 }
  let r := init_camera hw node0.cap_
  let pre := Effect.createPublisher "camera/image_raw" :: r.2.2
  if r.1 then
    { node := { node0 with cap_ := r.2.1, timer_ := some timerPeriodMs, save_path_ := savePath },
      contextOk := true,
      trace := pre ++ [Effect.createTimer timerPeriodMs, Effect.log LogLevel.info none,
                       Effect.log LogLevel.info none, Effect.log LogLevel.info none] }
  else
    { node := { node0 with cap_ := r.2.1 },
      contextOk := false,
      trace := pre ++ [Effect.log LogLevel.fatal none, Effect.shutdown] }

/-- A run of timer activations: the node afterwards and, per activation, the
calls it made. -/
def runTicks : CameraPublisherNode → List TickInput → CameraPublisherNode × List (List Effect)
  | s, [] => (s, [])
  | s, t :: ts =>
    let r := capture_and_publish s t
    let rest := runTicks r.1 ts
    (rest.1, r.2 :: rest.2)

/-- `rclcpp::spin(node)`: the timer callback is dispatched once per supplied
activation, provided the node owns a timer and the context is valid. -/
def spin (c : Constructed) (ticks : List TickInput) : CameraPublisherNode × List Effect :=
  match c.node.timer_ with
  | none => (c.node, [])
  | some _ =>
    if c.contextOk then
      let r := runTicks c.node ticks
      (r.1, r.2.flatten)
    else (c.node, [])

/-- The program `main`: construct the node, spin it over the activations the
timer delivers, destroy the node (`cap_.release()` and a log line), shut down. -/
def main (hw : Hardware) (t0 : Int) (ticks : List TickInput) : List Effect :=
  let c := construct hw t0
  let r := spin c ticks
  c.trace ++ r.2 ++ [Effect.release, Effect.log LogLevel.info none, Effect.shutdown]

/-! ## Observations on traces -/

/-- The entry is a call of `imwrite`. -/
def Effect.isWrite : Effect → Bool
  | Effect.imwrite _ _ _ => true
  | _ => false

/-- The entry is a call of `image_pub_.publish`. -/
def Effect.isPublish : Effect → Bool
  | Effect.publish _ => true
  | _ => false

/-- The entry is a call of `cap_.open`; its index. -/
def Effect.openedIndex : Effect → Option Nat
  | Effect.openDevice i => some i
  | _ => none

/-- The indices on which `open` was called, in call order. -/
def attempts (tr : List Effect) : List Nat := tr.filterMap Effect.openedIndex

/-- The clock readings `now` of those activations of a run that called
`imwrite`; the second list holds the calls of each activation. -/
def writeTimes : List TickInput → List (List Effect) → List Int
  | t :: ts, tr :: trs =>
    if tr.any Effect.isWrite then t.now :: writeTimes ts trs else writeTimes ts trs
  | _, _ => []

/-- The positions, counted from `k`, of those activations of a run that called
`imwrite`. -/
def writeIndicesFrom (k : Nat) : List (List Effect) → List Nat
  | [] => []
  | tr :: trs =>
    if tr.any Effect.isWrite then k :: writeIndicesFrom (k + 1) trs
    else writeIndicesFrom (k + 1) trs

/-- Consecutive activations are `period` nanoseconds apart on the clock. -/
def steadyTicks (period : Int) : List TickInput → Prop
  | a :: b :: rest => b.now = a.now + period ∧ steadyTicks period (b :: rest)
  | _ => True

/-- Consecutive entries of the list differ by exactly `d`. -/
def spacedBy (d : Nat) : List Nat → Prop
  | a :: b :: rest => b = a + d ∧ spacedBy d (b :: rest)
  | _ => True

/-- Whether a run is steady can be computed. -/
def steadyTicksDec (period : Int) : (l : List TickInput) → Decidable (steadyTicks period l)
  | [] => isTrue trivial
  | [_] => isTrue trivial
  | a :: b :: rest =>
    match steadyTicksDec period (b :: rest) with
    | isTrue h =>
      if h0 : b.now = a.now + period then isTrue ⟨h0, h⟩
      else isFalse (fun hc => h0 hc.1)
    | isFalse h => isFalse (fun hc => h hc.2)

instance (period : Int) (l : List TickInput) : Decidable (steadyTicks period l) :=
  steadyTicksDec period l

/-- Whether a list is evenly spaced can be computed. -/
def spacedByDec (d : Nat) : (l : List Nat) → Decidable (spacedBy d l)
  | [] => isTrue trivial
  | [_] => isTrue trivial
  | a :: b :: rest =>
    match spacedByDec d (b :: rest) with
    | isTrue h =>
      if h0 : b = a + d then isTrue ⟨h0, h⟩
      else isFalse (fun hc => h0 hc.1)
    | isFalse h => isFalse (fun hc => h hc.2)

instance (d : Nat) (l : List Nat) : Decidable (spacedBy d l) :=
  spacedByDec d l

/-- The file at `path` after one call, a successful `imwrite` on that path
replacing the content by the image written. -/
def fileAfterEffect (path : String) (file : Option Mat) : Effect → Option Mat
  | Effect.imwrite p img true => if p = path then some img else file
  | _ => file

/-- The file at `path` after a trace of calls. -/
def fileAfter (path : String) (file : Option Mat) (tr : List Effect) : Option Mat :=
  tr.foldl (fileAfterEffect path) file

/-- The node just before activation number `i` of a run started in `s`. -/
def stateBefore (s : CameraPublisherNode) (ticks : List TickInput) (i : Nat) :
    CameraPublisherNode :=
  (runTicks s (ticks.take i)).1

/-- A run of `n` activations with non-empty frames whose clock readings are
33 ms apart, the first one 33 ms after time 0. -/
def cadenceTicks (n : Nat) : List TickInput :=
  (List.range n).map (fun i => ⟨⟨[1]⟩, 33 * oneMilli * ((i : Int) + 1), true, 0⟩)

/-- A node as the constructor leaves it when the clock reads 0. -/
def freshNode : CameraPublisherNode :=
  { cap_ := ⟨some 0⟩, timer_ := some timerPeriodMs, save_path_ := savePath,
    save_interval_ := oneSecond, last_save_time_ := 0 }

/-- The save gate of `capture_and_publish` as a proposition on state and input. -/
def gateOpen (s : CameraPublisherNode) (inp : TickInput) : Prop :=
  inp.now - s.last_save_time_ ≥ s.save_interval_

instance (s : CameraPublisherNode) (inp : TickInput) : Decidable (gateOpen s inp) := by
  unfold gateOpen; infer_instance

/-- Activation number `i` of the run is gated: its frame is non-empty and, in
the state the run has reached by then, `now - last_save_time_ >= save_interval_`. -/
def gatedAt (s : CameraPublisherNode) (ticks : List TickInput) (i : Nat) : Prop :=
  ∃ t, ticks[i]? = some t ∧ t.frame.empty = false ∧ gateOpen (stateBefore s ticks i) t

/-- Three gated activations one second apart; only the first `imwrite` succeeds. -/
def failingSaves : List TickInput :=
  [ ⟨⟨[1]⟩, 1 * oneSecond, true, 0⟩,
    ⟨⟨[2]⟩, 2 * oneSecond, false, 0⟩,
    ⟨⟨[3]⟩, 3 * oneSecond, false, 0⟩ ]

/-- A start-up environment in which no device opens. -/
def deadHardware : Hardware :=
  { opens := fun _ => false, setOk := fun _ => true, testFrame := fun _ => ⟨[1]⟩ }

/-- A start-up environment in which devices 0 and 1 are absent and 2, 3 open. -/
def thirdHardware : Hardware :=
  { opens := fun i => decide (2 ≤ i), setOk := fun _ => true, testFrame := fun _ => ⟨[1]⟩ }

/-- The entry is neither an `imwrite`, nor a `publish`, nor a timer creation. -/
def Effect.quiet (e : Effect) : Prop :=
  e.isWrite = false ∧ e.isPublish = false ∧ ∀ p, e ≠ Effect.createTimer p

/-! ## One activation -/

theorem tick_empty (s : CameraPublisherNode) (inp : TickInput) (hF : inp.frame.empty = true) :
    capture_and_publish s inp = (s, [Effect.readFrame, Effect.log LogLevel.warn (some 1000)]) := by
  simp [capture_and_publish, hF]

theorem tick_closed (s : CameraPublisherNode) (inp : TickInput) (hF : inp.frame.empty = false)
    (hG : ¬ gateOpen s inp) :
    capture_and_publish s inp =
      (s, [Effect.readFrame,
           Effect.publish { stamp := inp.stamp, frame_id := "camera_frame",
                            encoding := "bgr8", image := inp.frame }]) := by
  unfold gateOpen at hG
  simp [capture_and_publish, hF, hG]

theorem tick_open (s : CameraPublisherNode) (inp : TickInput) (hF : inp.frame.empty = false)
    (hG : gateOpen s inp) :
    capture_and_publish s inp =
      ({ s with last_save_time_ := inp.now },
       [Effect.readFrame,
        Effect.imwrite s.save_path_ inp.frame inp.save_success,
        Effect.log (if inp.save_success then LogLevel.info else LogLevel.error) (some 1000),
        Effect.publish { stamp := inp.stamp, frame_id := "camera_frame",
                         encoding := "bgr8", image := inp.frame }]) := by
  unfold gateOpen at hG
  simp [capture_and_publish, hF, hG]

theorem tick_no_gate (s : CameraPublisherNode) (inp : TickInput) (hG : ¬ gateOpen s inp) :
    (capture_and_publish s inp).1 = s ∧
    ∀ e ∈ (capture_and_publish s inp).2, e.isWrite = false := by
  cases hF : inp.frame.empty
  · rw [tick_closed s inp hF hG]
    refine ⟨rfl, ?_⟩
    intro e he
    simp at he
    rcases he with rfl | rfl <;> rfl
  · rw [tick_empty s inp hF]
    refine ⟨rfl, ?_⟩
    intro e he
    simp at he
    rcases he with rfl | rfl <;> rfl

/-! ## Runs of activations -/

theorem runTicks_nil (s : CameraPublisherNode) : runTicks s [] = (s, []) := rfl

theorem runTicks_cons (s : CameraPublisherNode) (t : TickInput) (ts : List TickInput) :
    runTicks s (t :: ts) =
      ((runTicks (capture_and_publish s t).1 ts).1,
       (capture_and_publish s t).2 :: (runTicks (capture_and_publish s t).1 ts).2) := rfl

theorem runTicks_quiet (s : CameraPublisherNode) (ts : List TickInput)
    (h : ∀ t ∈ ts, ¬ gateOpen s t) :
    (runTicks s ts).1 = s ∧ ∀ tr ∈ (runTicks s ts).2, ∀ e ∈ tr, e.isWrite = false := by
  induction ts with
  | nil => exact ⟨rfl, by simp [runTicks_nil]⟩
  | cons t ts ih =>
    have h0 := tick_no_gate s t (h t (List.mem_cons_self t ts))
    have ih1 := ih (fun u hu => h u (List.mem_cons_of_mem t hu))
    rw [runTicks_cons, h0.1]
    refine ⟨ih1.1, ?_⟩
    intro tr htr
    rcases List.mem_cons.mp htr with rfl | htr
    · exact h0.2
    · exact ih1.2 tr htr

/-- C1: on an activation with a non-empty frame, `imwrite` is called (once, on
`save_path_`, with that frame) exactly when `now - last_save_time_` has reached
`save_interval_` = 1 s; below 1 s the activation makes no write, and at exactly
1 s it makes the write. -/
theorem gate_correctness (s : CameraPublisherNode) (inp : TickInput)
    (hI : s.save_interval_ = oneSecond) (hF : inp.frame.empty = false) :
    ((Effect.imwrite s.save_path_ inp.frame inp.save_success ∈ (capture_and_publish s inp).2)
        ↔ inp.now - s.last_save_time_ ≥ oneSecond) ∧
    ((∃ e ∈ (capture_and_publish s inp).2, e.isWrite = true)
        ↔ inp.now - s.last_save_time_ ≥ oneSecond) ∧
    (inp.now - s.last_save_time_ < oneSecond →
        ∀ e ∈ (capture_and_publish s inp).2, e.isWrite = false) ∧
    (inp.now - s.last_save_time_ = oneSecond →
        (capture_and_publish s inp).2.filter Effect.isWrite
          = [Effect.imwrite s.save_path_ inp.frame inp.save_success]) := by
  by_cases hG : gateOpen s inp
  · have hG1 : inp.now - s.last_save_time_ ≥ oneSecond := by
      unfold gateOpen at hG; rw [hI] at hG; exact hG
    rw [tick_open s inp hF hG]
    refine ⟨by simp [hG1], ?_, ?_, ?_⟩
    · constructor
      · intro _; exact hG1
      · intro _
        exact ⟨Effect.imwrite s.save_path_ inp.frame inp.save_success, by simp, rfl⟩
    · intro hlt; exact absurd hG1 (not_le.mpr hlt)
    · intro _; simp [List.filter, Effect.isWrite]
  · have hG1 : ¬ inp.now - s.last_save_time_ ≥ oneSecond := by
      unfold gateOpen at hG; rw [hI] at hG; exact hG
    rw [tick_closed s inp hF hG]
    refine ⟨by simp [hG1], ?_, ?_, ?_⟩
    · constructor
      · rintro ⟨e, he, hw⟩
        simp at he
        rcases he with rfl | rfl <;> simp [Effect.isWrite] at hw
      · intro h; exact absurd h hG1
    · intro _ e he
      simp at he
      rcases he with rfl | rfl <;> rfl
    · intro heq; exact absurd (le_of_eq heq.symm) hG1

/-- C1, at a concrete input: one second after the last save the frame is written. -/
theorem gate_correctness_witness :
    (Effect.imwrite "p" ⟨[1]⟩ true ∈
        (capture_and_publish ⟨⟨some 0⟩, some 33, "p", oneSecond, 5⟩
          ⟨⟨[1]⟩, 5 + oneSecond, true, 7⟩).2)
      ↔ (5 + oneSecond) - 5 ≥ oneSecond :=
  (gate_correctness ⟨⟨some 0⟩, some 33, "p", oneSecond, 5⟩ ⟨⟨[1]⟩, 5 + oneSecond, true, 7⟩
    rfl rfl).1

/-- C2: an activation whose frame is empty calls neither `imwrite` nor
`publish` and leaves the node, `last_save_time_` included, as it was, whatever
the clock reads. -/
theorem empty_frame_is_skipped (s : CameraPublisherNode) (inp : TickInput)
    (hF : inp.frame.empty = true) :
    (∀ e ∈ (capture_and_publish s inp).2, e.isWrite = false ∧ e.isPublish = false) ∧
    (capture_and_publish s inp).1.last_save_time_ = s.last_save_time_ ∧
    (capture_and_publish s inp).1 = s := by
  rw [tick_empty s inp hF]
  refine ⟨?_, rfl, rfl⟩
  intro e he
  simp at he
  rcases he with rfl | rfl <;> exact ⟨rfl, rfl⟩

/-- C2, at a concrete input: the interval has long elapsed, the frame is empty. -/
theorem empty_frame_is_skipped_witness :
    (capture_and_publish ⟨⟨some 0⟩, some 33, "p", oneSecond, 0⟩
        ⟨⟨[]⟩, 5 * oneSecond, true, 7⟩).1.last_save_time_ = 0 :=
  (empty_frame_is_skipped ⟨⟨some 0⟩, some 33, "p", oneSecond, 0⟩
    ⟨⟨[]⟩, 5 * oneSecond, true, 7⟩ rfl).2.1

/-- C3: when the gate fires on a non-empty frame, `last_save_time_` becomes that
activation's `now` whether `imwrite` answers success or failure; and from the
state so reached, activations whose clock is less than `save_interval_` past
that `now` make no write. -/
theorem save_time_advances_either_way (s : CameraPublisherNode) (inp : TickInput)
    (hF : inp.frame.empty = false)
    (hG : inp.now - s.last_save_time_ ≥ s.save_interval_) :
    (∀ ok : Bool,
      (capture_and_publish s { inp with save_success := ok }).1.last_save_time_ = inp.now) ∧
    (∀ (ok : Bool) (later : List TickInput),
      (∀ t ∈ later, t.now - inp.now < s.save_interval_) →
      ∀ tr ∈ (runTicks (capture_and_publish s { inp with save_success := ok }).1 later).2,
        ∀ e ∈ tr, e.isWrite = false) := by
  have key : ∀ ok : Bool, (capture_and_publish s { inp with save_success := ok }).1
      = { s with last_save_time_ := inp.now } := by
    intro ok
    rw [tick_open s { inp with save_success := ok } hF hG]
  refine ⟨fun ok => by rw [key ok], ?_⟩
  intro ok later hl
  rw [key ok]
  apply (runTicks_quiet _ later _).2
  intro t ht hopen
  exact absurd hopen (not_le.mpr (hl t ht))

/-- C3, at a concrete input: the write fails and the stamp still advances. -/
theorem save_time_advances_either_way_witness :
    (capture_and_publish ⟨⟨some 0⟩, some 33, "p", oneSecond, 0⟩
        { (⟨⟨[1]⟩, 2 * oneSecond, true, 7⟩ : TickInput) with save_success := false }
      ).1.last_save_time_ = 2 * oneSecond :=
  (save_time_advances_either_way ⟨⟨some 0⟩, some 33, "p", oneSecond, 0⟩
    ⟨⟨[1]⟩, 2 * oneSecond, true, 7⟩ rfl (by decide)).1 false

/-- C4: an activation with a non-empty frame publishes exactly one message, which
carries that frame with encoding "bgr8" and frame id "camera_frame", whether or
not the gate fired and whatever `imwrite` answered; every `imwrite` of the
activation comes before the `publish`. -/
theorem publish_once_after_write (s : CameraPublisherNode) (inp : TickInput)
    (hF : inp.frame.empty = false) :
    (capture_and_publish s inp).2.filter Effect.isPublish
      = [Effect.publish { stamp := inp.stamp, frame_id := "camera_frame",
                          encoding := "bgr8", image := inp.frame }] ∧
    ∀ (pre post : List Effect) (e : Effect),
      (capture_and_publish s inp).2 = pre ++ e :: post → e.isWrite = true →
      (∀ x ∈ pre, x.isPublish = false) ∧ (∃ x ∈ post, x.isPublish = true) := by
  by_cases hG : gateOpen s inp
  · rw [tick_open s inp hF hG]
    refine ⟨by simp [List.filter, Effect.isPublish], ?_⟩
    intro pre post e heq hw
    rcases pre with _ | ⟨a, _ | ⟨b, _ | ⟨c, _ | ⟨d, pre⟩⟩⟩⟩
    · simp at heq; rw [← heq.1] at hw; simp [Effect.isWrite] at hw
    · simp at heq
      obtain ⟨ha, -, hp⟩ := heq
      subst ha; subst hp
      refine ⟨by simp [Effect.isPublish], ?_⟩
      exact ⟨_, List.mem_cons_of_mem _ (List.mem_singleton_self _), rfl⟩
    · simp at heq; rw [← heq.2.2.1] at hw; simp [Effect.isWrite] at hw
    · simp at heq; rw [← heq.2.2.2.1] at hw; simp [Effect.isWrite] at hw
    · simp at heq
  · rw [tick_closed s inp hF hG]
    refine ⟨by simp [List.filter, Effect.isPublish], ?_⟩
    intro pre post e heq hw
    rcases pre with _ | ⟨a, _ | ⟨b, pre⟩⟩
    · simp at heq; rw [← heq.1] at hw; simp [Effect.isWrite] at hw
    · simp at heq; rw [← heq.2.1] at hw; simp [Effect.isWrite] at hw
    · simp at heq

/-- C4, at a concrete input: the gate fires, the write fails, one message goes out. -/
theorem publish_once_after_write_witness :
    (capture_and_publish ⟨⟨some 0⟩, some 33, "p", oneSecond, 0⟩
        ⟨⟨[1]⟩, 2 * oneSecond, false, 7⟩).2.filter Effect.isPublish
      = [Effect.publish { stamp := 7, frame_id := "camera_frame",
                          encoding := "bgr8", image := ⟨[1]⟩ }] :=
  (publish_once_after_write ⟨⟨some 0⟩, some 33, "p", oneSecond, 0⟩
    ⟨⟨[1]⟩, 2 * oneSecond, false, 7⟩ rfl).1

/-! ## Start-up -/

theorem range_four : List.range 4 = [0, 1, 2, 3] := rfl

/-- The probing loop, unfolded over its four indices. -/
theorem probeLoop_cases (hw : Hardware) (cap : VideoCapture) :
    probeLoop hw (List.range 4) cap =
      if hw.opens 0 then
        (⟨some 0⟩, [Effect.openDevice 0, Effect.log LogLevel.info none])
      else if hw.opens 1 then
        (⟨some 1⟩, [Effect.openDevice 0, Effect.openDevice 1, Effect.log LogLevel.info none])
      else if hw.opens 2 then
        (⟨some 2⟩, [Effect.openDevice 0, Effect.openDevice 1, Effect.openDevice 2,
                    Effect.log LogLevel.info none])
      else if hw.opens 3 then
        (⟨some 3⟩, [Effect.openDevice 0, Effect.openDevice 1, Effect.openDevice 2,
                    Effect.openDevice 3, Effect.log LogLevel.info none])
      else
        (⟨none⟩, [Effect.openDevice 0, Effect.openDevice 1, Effect.openDevice 2,
                  Effect.openDevice 3]) := by
  rw [range_four]
  cases h0 : hw.opens 0 <;> cases h1 : hw.opens 1 <;> cases h2 : hw.opens 2 <;>
    cases h3 : hw.opens 3 <;>
    simp [probeLoop, VideoCapture.openIndex, VideoCapture.isOpened, h0, h1, h2, h3]

/-- The scenario of the specification: devices 0 and 1 absent, device 2 opens;
the attempts are 0, 1, 2, device 2 is held and device 3 is not tried. -/
theorem probe_scenario :
    attempts (init_camera thirdHardware ⟨none⟩).2.2 = [0, 1, 2] ∧
    (init_camera thirdHardware ⟨none⟩).2.1.opened = some 2 ∧
    (init_camera thirdHardware ⟨none⟩).1 = true := by
  simp [init_camera, probeLoop_cases, thirdHardware, attempts, configureEffects,
    Effect.openedIndex, Mat.empty]

/-- The capture `init_camera` leaves behind is the one the probing loop left. -/
theorem init_camera_cap (hw : Hardware) (cap : VideoCapture) :
    (init_camera hw cap).2.1 = (probeLoop hw (List.range 4) cap).1 := by
  unfold init_camera
  cases hopen : (probeLoop hw (List.range 4) cap).1.opened with
  | none => simp [hopen]
  | some dev =>
    cases hE : (hw.testFrame dev).empty <;> simp [hopen, hE]

/-- All `open` calls of `init_camera` are those of the probing loop. -/
theorem init_camera_attempts (hw : Hardware) (cap : VideoCapture) :
    attempts (init_camera hw cap).2.2 = attempts (probeLoop hw (List.range 4) cap).2 := by
  unfold init_camera
  cases hopen : (probeLoop hw (List.range 4) cap).1.opened with
  | none => simp [hopen, attempts, List.filterMap_append, Effect.openedIndex]
  | some dev =>
    cases hE : (hw.testFrame dev).empty <;>
      simp [hopen, hE, attempts, List.filterMap_append, Effect.openedIndex, configureEffects]

/-- The result of `init_camera` in terms of the probing loop. -/
theorem init_camera_result (hw : Hardware) (cap : VideoCapture) :
    (init_camera hw cap).1 =
      match (probeLoop hw (List.range 4) cap).1.opened with
      | none => false
      | some dev => !(hw.testFrame dev).empty := by
  unfold init_camera
  cases hopen : (probeLoop hw (List.range 4) cap).1.opened with
  | none => simp [hopen]
  | some dev =>
    cases hE : (hw.testFrame dev).empty <;> simp [hopen, hE]

/-- C5 (as stated, at the environment where nothing opens): all four indices are
tried, so k = 3, and yet no device is held afterwards. -/
theorem probe_none_opens_counterexample :
    (∀ i, i < 4 → deadHardware.opens i = false) ∧
    attempts (init_camera deadHardware ⟨none⟩).2.2 = [0, 1, 2, 3] ∧
    (init_camera deadHardware ⟨none⟩).2.1.opened = none ∧
    (init_camera deadHardware ⟨none⟩).2.1.opened ≠ some 3 := by
  rw [init_camera_attempts, init_camera_cap, probeLoop_cases]
  refine ⟨fun _ _ => rfl, ?_, ?_, ?_⟩ <;>
    simp [deadHardware, attempts, Effect.openedIndex]

/-- C5 (amended): whatever opens and whatever fails among 0..3, `open` is
attempted on exactly 0..k in ascending order, k being the least index that opens
(3 if none does); no index above k is attempted; and afterwards the capture
holds device k if some index opened and holds no device if none did. -/
theorem probe_order (hw : Hardware) (cap : VideoCapture) :
    ∃ k : Nat, k ≤ 3 ∧ (∀ j, j < k → hw.opens j = false) ∧ (hw.opens k = true ∨ k = 3) ∧
      attempts (init_camera hw cap).2.2 = List.range (k + 1) ∧
      (∀ j, k < j → j ∉ attempts (init_camera hw cap).2.2) ∧
      (init_camera hw cap).2.1.opened = (if hw.opens k then some k else none) := by
  rw [init_camera_attempts, init_camera_cap, probeLoop_cases]
  have hr1 : List.range 1 = [0] := rfl
  have hr2 : List.range 2 = [0, 1] := rfl
  have hr3 : List.range 3 = [0, 1, 2] := rfl
  have key : ∀ j : Nat, j < 4 → j = 0 ∨ j = 1 ∨ j = 2 ∨ j = 3 := by omega
  by_cases h0 : hw.opens 0 = true
  · refine ⟨0, by omega, by omega, Or.inl h0, ?_, ?_, ?_⟩
    · simp [h0, attempts, Effect.openedIndex, hr1]
    · intro j hj; simp [h0, attempts, Effect.openedIndex]; omega
    · simp [h0]
  by_cases h1 : hw.opens 1 = true
  · refine ⟨1, by omega, ?_, Or.inl h1, ?_, ?_, ?_⟩
    · intro j hj
      have : j = 0 := by omega
      subst this; simpa using h0
    · simp [h0, h1, attempts, Effect.openedIndex, hr2]
    · intro j hj; simp [h0, h1, attempts, Effect.openedIndex]; omega
    · simp [h0, h1]
  by_cases h2 : hw.opens 2 = true
  · refine ⟨2, by omega, ?_, Or.inl h2, ?_, ?_, ?_⟩
    · intro j hj
      rcases key j (by omega) with rfl | rfl | rfl | rfl
      · simpa using h0
      · simpa using h1
      · omega
      · omega
    · simp [h0, h1, h2, attempts, Effect.openedIndex, hr3]
    · intro j hj; simp [h0, h1, h2, attempts, Effect.openedIndex]; omega
    · simp [h0, h1, h2]
  refine ⟨3, le_refl 3, ?_, Or.inr rfl, ?_, ?_, ?_⟩
  · intro j hj
    rcases key j (by omega) with rfl | rfl | rfl | rfl
    · simpa using h0
    · simpa using h1
    · simpa using h2
    · omega
  · by_cases h3 : hw.opens 3 = true <;>
      simp [h0, h1, h2, h3, attempts, Effect.openedIndex, range_four]
  · intro j hj
    by_cases h3 : hw.opens 3 = true <;>
      simp [h0, h1, h2, h3, attempts, Effect.openedIndex] <;> omega
  · by_cases h3 : hw.opens 3 = true <;> simp [h0, h1, h2, h3]

/-- The probing loop ends holding device `k` exactly when `k` is the least index
below 4 that opens. -/
theorem probe_opened_iff (hw : Hardware) (cap : VideoCapture) (k : Nat) :
    (probeLoop hw (List.range 4) cap).1.opened = some k ↔
      (k < 4 ∧ hw.opens k = true ∧ ∀ j, j < k → hw.opens j = false) := by
  rw [probeLoop_cases]
  constructor
  · intro h
    cases h0 : hw.opens 0 <;> cases h1 : hw.opens 1 <;> cases h2 : hw.opens 2 <;>
      cases h3 : hw.opens 3 <;> simp [h0, h1, h2, h3] at h <;> subst h <;>
      refine ⟨by omega, by assumption, ?_⟩ <;> intro j hj <;> interval_cases j <;> assumption
  · rintro ⟨hk, hok, hall⟩
    have a0 := hall 0
    have a1 := hall 1
    have a2 := hall 2
    interval_cases k <;> simp_all

theorem quiet_openDevice (i : Nat) : (Effect.openDevice i).quiet :=
  ⟨rfl, rfl, fun _ h => Effect.noConfusion h⟩

theorem quiet_log (l : LogLevel) (t : Option Nat) : (Effect.log l t).quiet :=
  ⟨rfl, rfl, fun _ h => Effect.noConfusion h⟩

theorem quiet_readFrame : Effect.readFrame.quiet :=
  ⟨rfl, rfl, fun _ h => Effect.noConfusion h⟩

theorem quiet_setProp (c : CapProp) (v : Int) : (Effect.setProp c v).quiet :=
  ⟨rfl, rfl, fun _ h => Effect.noConfusion h⟩

theorem quiet_getProp (c : CapProp) : (Effect.getProp c).quiet :=
  ⟨rfl, rfl, fun _ h => Effect.noConfusion h⟩

theorem probeLoop_quiet (hw : Hardware) (l : List Nat) (cap : VideoCapture) :
    ∀ e ∈ (probeLoop hw l cap).2, e.quiet := by
  induction l generalizing cap with
  | nil => intro e he; simp [probeLoop] at he
  | cons i rest ih =>
    intro e he
    unfold probeLoop at he
    by_cases hO : (cap.openIndex hw i).isOpened = true
    · simp [hO] at he
      rcases he with rfl | rfl
      · exact quiet_openDevice i
      · exact quiet_log _ _
    · simp [hO] at he
      rcases he with rfl | he
      · exact quiet_openDevice i
      · exact ih _ e he

theorem configureEffects_quiet : ∀ e ∈ configureEffects, e.quiet := by
  intro e he
  simp [configureEffects] at he
  rcases he with rfl | rfl | rfl | rfl | rfl | rfl | rfl | rfl | rfl
  all_goals first
    | exact quiet_setProp _ _
    | exact quiet_getProp _
    | exact quiet_log _ _

/-- Start-up makes no `imwrite`, no `publish` and creates no timer. -/
theorem init_camera_quiet (hw : Hardware) (cap : VideoCapture) :
    ∀ e ∈ (init_camera hw cap).2.2, e.quiet := by
  intro e he
  unfold init_camera at he
  cases hopen : (probeLoop hw (List.range 4) cap).1.opened with
  | none =>
    simp [hopen] at he
    rcases he with he | rfl
    · exact probeLoop_quiet hw _ cap e he
    · exact quiet_log _ _
  | some dev =>
    cases hE : (hw.testFrame dev).empty
    · simp [hopen, hE] at he
      rcases he with he | he | rfl
      · exact probeLoop_quiet hw _ cap e he
      · exact configureEffects_quiet e he
      · exact quiet_readFrame
    · simp [hopen, hE] at he
      rcases he with he | he | rfl | rfl
      · exact probeLoop_quiet hw _ cap e he
      · exact configureEffects_quiet e he
      · exact quiet_readFrame
      · exact quiet_log _ _

theorem construct_failed (hw : Hardware) (t0 : Int) (h : (init_camera hw ⟨none⟩).1 = false) :
    construct hw t0 =
      { node := { cap_ := (init_camera hw ⟨none⟩).2.1, timer_ := none, save_path_ := "",
                  save_interval_ := oneSecond, last_save_time_ := t0 },
        contextOk := false,
        trace := (Effect.createPublisher "camera/image_raw" :: (init_camera hw ⟨none⟩).2.2)
                  ++ [Effect.log LogLevel.fatal none, Effect.shutdown] } := by
  simp [construct, h]

/-- C6: when `init_camera` returns false (in particular when none of 0..3
opens), the constructor requests shutdown and creates no timer, the spin
dispatches no activation, and the whole trace of the program holds no `imwrite`
and no `publish`. -/
theorem no_output_when_init_fails (hw : Hardware) (t0 : Int) (ticks : List TickInput)
    (h : (init_camera hw ⟨none⟩).1 = false) :
    (construct hw t0).node.timer_ = none ∧
    Effect.shutdown ∈ (construct hw t0).trace ∧
    (∀ p, Effect.createTimer p ∉ (construct hw t0).trace) ∧
    (spin (construct hw t0) ticks).2 = [] ∧
    ∀ e ∈ main hw t0 ticks, e.isWrite = false ∧ e.isPublish = false := by
  have hq : ∀ e ∈ (construct hw t0).trace, e.quiet := by
    intro e he
    rw [construct_failed hw t0 h] at he
    simp at he
    rcases he with rfl | he | rfl | rfl
    · exact ⟨rfl, rfl, fun _ h => Effect.noConfusion h⟩
    · exact init_camera_quiet hw _ e he
    · exact quiet_log _ _
    · exact ⟨rfl, rfl, fun _ h => Effect.noConfusion h⟩
  have hs : (spin (construct hw t0) ticks).2 = [] := by
    rw [construct_failed hw t0 h]; rfl
  refine ⟨by rw [construct_failed hw t0 h], ?_, ?_, hs, ?_⟩
  · rw [construct_failed hw t0 h]; simp
  · intro p hp
    exact (hq _ hp).2.2 p rfl
  · intro e he
    unfold main at he
    simp only [hs, List.append_nil, List.mem_append] at he
    rcases he with he | he
    · exact ⟨(hq e he).1, (hq e he).2.1⟩
    · simp at he
      rcases he with rfl | rfl | rfl <;> exact ⟨rfl, rfl⟩

/-- C6, at a concrete input: nothing opens, two activations are on offer, and
no timer exists to run them. -/
theorem no_output_when_init_fails_witness :
    (init_camera deadHardware ⟨none⟩).1 = false ∧
    (spin (construct deadHardware 0)
      [⟨⟨[1]⟩, 2 * oneSecond, true, 7⟩, ⟨⟨[2]⟩, 4 * oneSecond, true, 9⟩]).2 = [] :=
  ⟨rfl, (no_output_when_init_fails deadHardware 0
      [⟨⟨[1]⟩, 2 * oneSecond, true, 7⟩, ⟨⟨[2]⟩, 4 * oneSecond, true, 9⟩] rfl).2.2.2.1⟩

theorem probeLoop_setOk (hw : Hardware) (answers : CapProp → Bool) (l : List Nat)
    (cap : VideoCapture) :
    probeLoop { hw with setOk := answers } l cap = probeLoop hw l cap := by
  induction l generalizing cap with
  | nil => rfl
  | cons i rest ih =>
    simp only [probeLoop, VideoCapture.openIndex]
    split
    · rfl
    · rw [ih]

/-- C10: `init_camera` returns true exactly when some index below 4 opens and
the test frame of the least such index is non-empty; the answers of the `set`
calls have no influence on anything it returns; at most one frame is read; and
when the least index that opens delivers an empty test frame the result is
false and no higher index is tried. -/
theorem init_camera_result_iff (hw : Hardware) (cap : VideoCapture) :
    ((init_camera hw cap).1 = true ↔
      ∃ k, k < 4 ∧ hw.opens k = true ∧ (∀ j, j < k → hw.opens j = false) ∧
        (hw.testFrame k).empty = false) ∧
    (∀ answers : CapProp → Bool,
      init_camera { hw with setOk := answers } cap = init_camera hw cap) ∧
    (init_camera hw cap).2.2.count Effect.readFrame ≤ 1 ∧
    (∀ k, k < 4 → hw.opens k = true → (∀ j, j < k → hw.opens j = false) →
      (hw.testFrame k).empty = true →
      (init_camera hw cap).1 = false ∧
      attempts (init_camera hw cap).2.2 = List.range (k + 1) ∧
      ∀ j, k < j → j ∉ attempts (init_camera hw cap).2.2) := by
  refine ⟨?_, ?_, ?_, ?_⟩
  · rw [init_camera_result]
    constructor
    · intro h
      cases hopen : (probeLoop hw (List.range 4) cap).1.opened with
      | none => simp [hopen] at h
      | some dev =>
        simp [hopen] at h
        obtain ⟨a, b, c⟩ := (probe_opened_iff hw cap dev).mp hopen
        exact ⟨dev, a, b, c, h⟩
    · rintro ⟨k, a, b, c, d⟩
      have hopen := (probe_opened_iff hw cap k).mpr ⟨a, b, c⟩
      simp [hopen, d]
  · intro answers
    unfold init_camera
    rw [probeLoop_setOk]
  · unfold init_camera
    have hp : (probeLoop hw (List.range 4) cap).2.count Effect.readFrame = 0 := by
      rw [probeLoop_cases]
      repeat' split
      all_goals decide
    cases hopen : (probeLoop hw (List.range 4) cap).1.opened with
    | none => simp [hopen, hp, List.count_append]
    | some dev =>
      cases hE : (hw.testFrame dev).empty <;>
        simp [hopen, hE, hp, List.count_append, configureEffects]
  · intro k a b c d
    have hopen := (probe_opened_iff hw cap k).mpr ⟨a, b, c⟩
    refine ⟨by rw [init_camera_result]; simp [hopen, d], ?_⟩
    have hat : attempts (init_camera hw cap).2.2 = List.range (k + 1) := by
      rw [init_camera_attempts, probeLoop_cases]
      have a0 := c 0
      have a1 := c 1
      have a2 := c 2
      interval_cases k <;> simp_all [attempts, Effect.openedIndex] <;> rfl
    refine ⟨hat, ?_⟩
    intro j hj
    rw [hat, List.mem_range]
    omega

/-! ## The save stamp along a run -/

/-- One activation either leaves the node alone and writes nothing, or it had a
non-empty frame with the gate open, wrote, and moved the stamp to `now`. -/
theorem tick_step (s : CameraPublisherNode) (t : TickInput) :
    ((capture_and_publish s t).1 = s ∧
      (capture_and_publish s t).2.any Effect.isWrite = false) ∨
    (t.frame.empty = false ∧ gateOpen s t ∧
      (capture_and_publish s t).1 = { s with last_save_time_ := t.now } ∧
      (capture_and_publish s t).2.any Effect.isWrite = true) := by
  by_cases hG : gateOpen s t
  · cases hF : t.frame.empty
    · right
      rw [tick_open s t hF hG]
      exact ⟨rfl, hG, rfl, rfl⟩
    · left
      rw [tick_empty s t hF]
      exact ⟨rfl, rfl⟩
  · left
    refine ⟨(tick_no_gate s t hG).1, ?_⟩
    rw [Bool.eq_false_iff]
    intro h
    obtain ⟨e, he, hw⟩ := List.any_eq_true.mp h
    rw [(tick_no_gate s t hG).2 e he] at hw
    exact Bool.noConfusion hw

/-- Every write of a run happens at least one interval after the stamp the run
started with. -/
theorem writeTimes_after (ticks : List TickInput) (s : CameraPublisherNode)
    (hI : 0 ≤ s.save_interval_) :
    ∀ a ∈ writeTimes ticks (runTicks s ticks).2, s.last_save_time_ + s.save_interval_ ≤ a := by
  induction ticks generalizing s with
  | nil => intro a ha; simp [runTicks_nil, writeTimes] at ha
  | cons t ts ih =>
    intro a ha
    rw [runTicks_cons] at ha
    simp only [writeTimes] at ha
    rcases tick_step s t with ⟨h1, h2⟩ | ⟨-, hG, h1, h2⟩
    · rw [h1, h2] at ha
      simp only [Bool.false_eq_true, if_false] at ha
      exact ih s hI a ha
    · rw [h1, h2] at ha
      simp only [if_true, List.mem_cons] at ha
      unfold gateOpen at hG
      rcases ha with rfl | ha
      · omega
      · have := ih { s with last_save_time_ := t.now } hI a ha
        simp only at this
        omega

theorem writeTimes_pairwise (ticks : List TickInput) (s : CameraPublisherNode)
    (hI : 0 ≤ s.save_interval_) :
    (writeTimes ticks (runTicks s ticks).2).Pairwise (fun a b => a + s.save_interval_ ≤ b) := by
  induction ticks generalizing s with
  | nil => simp [runTicks_nil, writeTimes]
  | cons t ts ih =>
    rw [runTicks_cons]
    simp only [writeTimes]
    rcases tick_step s t with ⟨h1, h2⟩ | ⟨-, -, h1, h2⟩
    · rw [h1, h2]
      simp only [Bool.false_eq_true, if_false]
      exact ih s hI
    · rw [h1, h2]
      simp only [if_true]
      refine List.Pairwise.cons ?_ (ih { s with last_save_time_ := t.now } hI)
      intro a ha
      exact writeTimes_after ts { s with last_save_time_ := t.now } hI a ha

/-- C7: with `save_interval_` at the constructor's 1 s, an activation never moves
`last_save_time_` backwards, whatever frame, clock and `imwrite` answer it
meets; the stamp changes only on an activation that passed the gate and wrote,
and then it grows by at least `save_interval_`; along any run, the clock
readings of two activations that wrote differ by at least `save_interval_`. -/
theorem save_time_monotone (s : CameraPublisherNode) (inp : TickInput)
    (hI : s.save_interval_ = oneSecond) :
    s.last_save_time_ ≤ (capture_and_publish s inp).1.last_save_time_ ∧
    ((capture_and_publish s inp).1.last_save_time_ ≠ s.last_save_time_ →
      inp.frame.empty = false ∧ gateOpen s inp ∧
      (capture_and_publish s inp).2.any Effect.isWrite = true ∧
      s.last_save_time_ + s.save_interval_ ≤ (capture_and_publish s inp).1.last_save_time_) ∧
    (∀ ticks : List TickInput,
      (writeTimes ticks (runTicks s ticks).2).Pairwise
        (fun a b => a + s.save_interval_ ≤ b)) := by
  have hpos : 0 ≤ s.save_interval_ := by rw [hI]; decide
  refine ⟨?_, ?_, fun ticks => writeTimes_pairwise ticks s hpos⟩
  · rcases tick_step s inp with ⟨h1, -⟩ | ⟨-, hG, h1, -⟩
    · rw [h1]
    · rw [h1]; unfold gateOpen at hG; simp only; omega
  · intro hne
    rcases tick_step s inp with ⟨h1, -⟩ | ⟨hF, hG, h1, h2⟩
    · rw [h1] at hne; exact absurd rfl hne
    · refine ⟨hF, hG, h2, ?_⟩
      rw [h1]; unfold gateOpen at hG; simp only; omega

/-- C7, at a concrete input: a write two seconds after the last one. -/
theorem save_time_monotone_witness :
    (0 : Int) ≤ (capture_and_publish ⟨⟨some 0⟩, some 33, "p", oneSecond, 0⟩
        ⟨⟨[1]⟩, 2 * oneSecond, false, 7⟩).1.last_save_time_ :=
  (save_time_monotone ⟨⟨some 0⟩, some 33, "p", oneSecond, 0⟩
    ⟨⟨[1]⟩, 2 * oneSecond, false, 7⟩ rfl).1

/-! ## Cadence -/

theorem steadyTicks_cons (period : Int) (a b : TickInput) (rest : List TickInput) :
    steadyTicks period (a :: b :: rest) ↔
      (b.now = a.now + period ∧ steadyTicks period (b :: rest)) := Iff.rfl

theorem spacedBy_cons (d a : Nat) (l : List Nat) :
    spacedBy d (a :: l) ↔ ((∀ b, l.head? = some b → b = a + d) ∧ spacedBy d l) := by
  cases l with
  | nil => simp [spacedBy]
  | cons b rest => simp [spacedBy]

/-- C8 (as stated, on a concrete run): 64 activations, 33 ms apart, all frames
non-empty, interval 1 s; the activations that write are numbers 30 and 61
(counting from 0), which are 31 apart and not 30. -/
theorem cadence_thirty_counterexample :
    steadyTicks (33 * oneMilli) (cadenceTicks 64) ∧
    (∀ t ∈ cadenceTicks 64, t.frame.empty = false) ∧
    writeIndicesFrom 0 (runTicks freshNode (cadenceTicks 64)).2 = [30, 61] ∧
    ¬ spacedBy 30 (writeIndicesFrom 0 (runTicks freshNode (cadenceTicks 64)).2) := by
  have h3 : writeIndicesFrom 0 (runTicks freshNode (cadenceTicks 64)).2 = [30, 61] := by
    decide
  refine ⟨?_, ?_, h3, ?_⟩
  · decide
  · decide
  · rw [h3]; simp [spacedBy]

theorem tick_open_any (s : CameraPublisherNode) (t : TickInput) (hF : t.frame.empty = false)
    (hG : gateOpen s t) :
    (capture_and_publish s t).1 = { s with last_save_time_ := t.now } ∧
    (capture_and_publish s t).2.any Effect.isWrite = true := by
  rw [tick_open s t hF hG]
  exact ⟨rfl, rfl⟩

theorem tick_shut_any (s : CameraPublisherNode) (t : TickInput) (hG : ¬ gateOpen s t) :
    (capture_and_publish s t).1 = s ∧
    (capture_and_publish s t).2.any Effect.isWrite = false := by
  rcases tick_step s t with h | ⟨-, hG1, -, -⟩
  · exact h
  · exact absurd hG1 hG

theorem steadyTicks_tail (period : Int) (t : TickInput) (ts : List TickInput)
    (h : steadyTicks period (t :: ts)) :
    steadyTicks period ts ∧ ∀ u, ts.head? = some u → u.now = t.now + period := by
  cases ts with
  | nil => exact ⟨trivial, by simp⟩
  | cons b rest =>
    refine ⟨h.2, ?_⟩
    intro u hu
    simp at hu
    subst hu
    exact h.1

/-- Once the stamp sits `m` periods (1 ≤ m ≤ 31) behind the next activation, the
next write comes `31 - m` activations later, and writes stay 31 apart. -/
theorem writeIndices_phase (ticks : List TickInput) :
    ∀ (s : CameraPublisherNode) (k m : Nat), 1 ≤ m → m ≤ 31 →
      s.save_interval_ = oneSecond →
      steadyTicks (33 * oneMilli) ticks → (∀ t ∈ ticks, t.frame.empty = false) →
      (∀ t, ticks.head? = some t → t.now = s.last_save_time_ + 33 * oneMilli * (m : Int)) →
      spacedBy 31 (writeIndicesFrom k (runTicks s ticks).2) ∧
      ∀ a, (writeIndicesFrom k (runTicks s ticks).2).head? = some a → a = k + (31 - m) := by
  induction ticks with
  | nil =>
    intro s k m _ _ _ _ _ _
    simp [runTicks_nil, writeIndicesFrom, spacedBy]
  | cons t ts ih =>
    intro s k m hm1 hm31 hI hS hF hH
    have ht : t.now = s.last_save_time_ + 33 * oneMilli * (m : Int) := hH t rfl
    obtain ⟨hS1, hnext⟩ := steadyTicks_tail _ t ts hS
    have hF0 : t.frame.empty = false := hF t (List.mem_cons_self t ts)
    have hF1 : ∀ u ∈ ts, u.frame.empty = false := fun u hu => hF u (List.mem_cons_of_mem t hu)
    rw [runTicks_cons]
    simp only [writeIndicesFrom]
    by_cases hm : m = 31
    · have hG : gateOpen s t := by
        unfold gateOpen
        rw [hI, ht, hm]
        simp only [oneSecond, oneMilli]
        omega
      obtain ⟨h1, h2⟩ := tick_open_any s t hF0 hG
      rw [h1, h2]
      simp only [if_true]
      have IH := ih { s with last_save_time_ := t.now } (k + 1) 1 (le_refl 1) (by omega) hI
        hS1 hF1 (fun u hu => by rw [hnext u hu]; simp)
      rw [spacedBy_cons]
      refine ⟨⟨fun b hb => ?_, IH.1⟩, fun a ha => ?_⟩
      · have := IH.2 b hb
        omega
      · simp at ha
        omega
    · have hG : ¬ gateOpen s t := by
        unfold gateOpen
        rw [hI, ht]
        simp only [oneSecond, oneMilli]
        omega
      obtain ⟨h1, h2⟩ := tick_shut_any s t hG
      rw [h1, h2]
      simp only [Bool.false_eq_true, if_false]
      have IH := ih s (k + 1) (m + 1) (by omega) (by omega) hI hS1 hF1
        (fun u hu => by rw [hnext u hu, ht]; push_cast; ring)
      refine ⟨IH.1, fun a ha => ?_⟩
      have := IH.2 a ha
      omega

theorem writeIndices_spaced (ticks : List TickInput) :
    ∀ (s : CameraPublisherNode) (k : Nat), s.save_interval_ = oneSecond →
      steadyTicks (33 * oneMilli) ticks → (∀ t ∈ ticks, t.frame.empty = false) →
      spacedBy 31 (writeIndicesFrom k (runTicks s ticks).2) := by
  induction ticks with
  | nil =>
    intro s k _ _ _
    simp [runTicks_nil, writeIndicesFrom, spacedBy]
  | cons t ts ih =>
    intro s k hI hS hF
    obtain ⟨hS1, hnext⟩ := steadyTicks_tail _ t ts hS
    have hF0 : t.frame.empty = false := hF t (List.mem_cons_self t ts)
    have hF1 : ∀ u ∈ ts, u.frame.empty = false := fun u hu => hF u (List.mem_cons_of_mem t hu)
    rw [runTicks_cons]
    simp only [writeIndicesFrom]
    by_cases hG : gateOpen s t
    · obtain ⟨h1, h2⟩ := tick_open_any s t hF0 hG
      rw [h1, h2]
      simp only [if_true]
      have P := writeIndices_phase ts { s with last_save_time_ := t.now } (k + 1) 1 (le_refl 1)
        (by omega) hI hS1 hF1 (fun u hu => by rw [hnext u hu]; simp)
      rw [spacedBy_cons]
      refine ⟨fun b hb => ?_, P.1⟩
      have := P.2 b hb
      omega
    · obtain ⟨h1, h2⟩ := tick_shut_any s t hG
      rw [h1, h2]
      simp only [Bool.false_eq_true, if_false]
      exact ih s (k + 1) hI hS1 hF1

/-- Once the stamp sits `m` periods (1 ≤ m ≤ 31) behind the next activation, the
activations that write are exactly those at positions `31 - m`, `31 - m + 31`,
`31 - m + 62`, ... of the run (counted from `k`). -/
theorem writeIndices_phase_mem (ticks : List TickInput) :
    ∀ (s : CameraPublisherNode) (k m : Nat), 1 ≤ m → m ≤ 31 →
      s.save_interval_ = oneSecond →
      steadyTicks (33 * oneMilli) ticks → (∀ t ∈ ticks, t.frame.empty = false) →
      (∀ t, ticks.head? = some t → t.now = s.last_save_time_ + 33 * oneMilli * (m : Int)) →
      ∀ a, a ∈ writeIndicesFrom k (runTicks s ticks).2 ↔
        (a < k + ticks.length ∧ k + (31 - m) ≤ a ∧ (a - (k + (31 - m))) % 31 = 0) := by
  induction ticks with
  | nil =>
    intro s k m _ _ _ _ _ _ a
    simp only [runTicks_nil, writeIndicesFrom, List.not_mem_nil, List.length_nil, false_iff]
    omega
  | cons t ts ih =>
    intro s k m hm1 hm31 hI hS hF hH a
    have ht : t.now = s.last_save_time_ + 33 * oneMilli * (m : Int) := hH t rfl
    obtain ⟨hS1, hnext⟩ := steadyTicks_tail _ t ts hS
    have hF0 : t.frame.empty = false := hF t (List.mem_cons_self t ts)
    have hF1 : ∀ u ∈ ts, u.frame.empty = false := fun u hu => hF u (List.mem_cons_of_mem t hu)
    rw [runTicks_cons]
    simp only [writeIndicesFrom, List.length_cons]
    by_cases hm : m = 31
    · have hG : gateOpen s t := by
        unfold gateOpen
        rw [hI, ht, hm]
        simp only [oneSecond, oneMilli]
        omega
      obtain ⟨h1, h2⟩ := tick_open_any s t hF0 hG
      rw [h1, h2]
      simp only [if_true, List.mem_cons]
      have IH := ih { s with last_save_time_ := t.now } (k + 1) 1 (le_refl 1) (by omega) hI
        hS1 hF1 (fun u hu => by rw [hnext u hu]; simp) a
      rw [IH]
      omega
    · have hG : ¬ gateOpen s t := by
        unfold gateOpen
        rw [hI, ht]
        simp only [oneSecond, oneMilli]
        omega
      obtain ⟨h1, h2⟩ := tick_shut_any s t hG
      rw [h1, h2]
      simp only [Bool.false_eq_true, if_false]
      have IH := ih s (k + 1) (m + 1) (by omega) (by omega) hI hS1 hF1
        (fun u hu => by rw [hnext u hu, ht]; push_cast; ring) a
      rw [IH]
      omega

/-- Thirty-one activations after one that wrote, the run writes again. -/
theorem writeIndices_recur (ticks : List TickInput) :
    ∀ (s : CameraPublisherNode) (k : Nat), s.save_interval_ = oneSecond →
      steadyTicks (33 * oneMilli) ticks → (∀ t ∈ ticks, t.frame.empty = false) →
      ∀ i ∈ writeIndicesFrom k (runTicks s ticks).2, i + 31 < k + ticks.length →
        i + 31 ∈ writeIndicesFrom k (runTicks s ticks).2 := by
  induction ticks with
  | nil =>
    intro s k _ _ _ i hi
    simp [runTicks_nil, writeIndicesFrom] at hi
  | cons t ts ih =>
    intro s k hI hS hF i hi hlen
    obtain ⟨hS1, hnext⟩ := steadyTicks_tail _ t ts hS
    have hF0 : t.frame.empty = false := hF t (List.mem_cons_self t ts)
    have hF1 : ∀ u ∈ ts, u.frame.empty = false := fun u hu => hF u (List.mem_cons_of_mem t hu)
    rw [runTicks_cons] at hi ⊢
    simp only [writeIndicesFrom, List.length_cons] at hi hlen ⊢
    by_cases hG : gateOpen s t
    · obtain ⟨h1, h2⟩ := tick_open_any s t hF0 hG
      rw [h1, h2] at hi ⊢
      simp only [if_true, List.mem_cons] at hi ⊢
      have P := writeIndices_phase_mem ts { s with last_save_time_ := t.now } (k + 1) 1
        (le_refl 1) (by omega) hI hS1 hF1 (fun u hu => by rw [hnext u hu]; simp)
      right
      rw [P (i + 31)]
      rcases hi with rfl | hi
      · omega
      · have := (P i).mp hi
        omega
    · obtain ⟨h1, h2⟩ := tick_shut_any s t hG
      rw [h1, h2] at hi ⊢
      simp only [Bool.false_eq_true, if_false] at hi ⊢
      exact ih s (k + 1) hI hS1 hF1 i hi (by omega)

/-- When the stamp is at least `j` periods behind the next activation and the
run is long enough, a write comes within the next `31 - j` activations. -/
theorem writeIndices_first (ticks : List TickInput) :
    ∀ (s : CameraPublisherNode) (k j : Nat), j ≤ 31 → s.save_interval_ = oneSecond →
      steadyTicks (33 * oneMilli) ticks → (∀ t ∈ ticks, t.frame.empty = false) →
      (∀ t, ticks.head? = some t → s.last_save_time_ + 33 * oneMilli * (j : Int) ≤ t.now) →
      32 - j ≤ ticks.length →
      ∃ i ∈ writeIndicesFrom k (runTicks s ticks).2, i ≤ k + (31 - j) := by
  induction ticks with
  | nil =>
    intro s k j hj _ _ _ _ hlen
    simp only [List.length_nil] at hlen
    omega
  | cons t ts ih =>
    intro s k j hj hI hS hF hH hlen
    have ht : s.last_save_time_ + 33 * oneMilli * (j : Int) ≤ t.now := hH t rfl
    obtain ⟨hS1, hnext⟩ := steadyTicks_tail _ t ts hS
    have hF0 : t.frame.empty = false := hF t (List.mem_cons_self t ts)
    have hF1 : ∀ u ∈ ts, u.frame.empty = false := fun u hu => hF u (List.mem_cons_of_mem t hu)
    rw [runTicks_cons]
    simp only [writeIndicesFrom, List.length_cons] at hlen ⊢
    by_cases hG : gateOpen s t
    · obtain ⟨h1, h2⟩ := tick_open_any s t hF0 hG
      rw [h1, h2]
      simp only [if_true]
      exact ⟨k, List.mem_cons_self _ _, by omega⟩
    · obtain ⟨h1, h2⟩ := tick_shut_any s t hG
      rw [h1, h2]
      simp only [Bool.false_eq_true, if_false]
      have hj30 : j ≤ 30 := by
        unfold gateOpen at hG
        rw [hI] at hG
        simp only [oneSecond, oneMilli] at hG ht
        omega
      obtain ⟨i, hi, hle⟩ := ih s (k + 1) (j + 1) (by omega) hI hS1 hF1
        (fun u hu => by
          rw [hnext u hu]
          simp only [oneMilli] at ht ⊢
          push_cast
          omega)
        (by omega)
      exact ⟨i, hi, by omega⟩

/-- C8 (amended): with `save_interval_` = 1 s, activations whose clock readings
are exactly 33 ms apart and frames all non-empty, one save occurs every 31st
activation: any two consecutive activations that call `imwrite` are exactly 31
activations apart; 31 activations after each one that wrote, the run (while it
lasts) writes again; when the stamp is not ahead of the first activation's
clock, a first write comes within the first 32 activations; and when the first
activation comes one period after the stamp (as after construction), the
writing activations are exactly numbers 30, 61, 92, ... counted from 0. -/
theorem cadence_thirty_one (s : CameraPublisherNode) (ticks : List TickInput)
    (hI : s.save_interval_ = oneSecond)
    (hS : steadyTicks (33 * oneMilli) ticks)
    (hF : ∀ t ∈ ticks, t.frame.empty = false) :
    spacedBy 31 (writeIndicesFrom 0 (runTicks s ticks).2) ∧
    (∀ i ∈ writeIndicesFrom 0 (runTicks s ticks).2, i + 31 < ticks.length →
      i + 31 ∈ writeIndicesFrom 0 (runTicks s ticks).2) ∧
    ((∀ t, ticks.head? = some t → s.last_save_time_ ≤ t.now) → 32 ≤ ticks.length →
      ∃ i ∈ writeIndicesFrom 0 (runTicks s ticks).2, i ≤ 31) ∧
    ((∀ t, ticks.head? = some t → t.now = s.last_save_time_ + 33 * oneMilli) →
      ∀ a, a ∈ writeIndicesFrom 0 (runTicks s ticks).2 ↔
        (a < ticks.length ∧ 30 ≤ a ∧ (a - 30) % 31 = 0)) := by
  refine ⟨writeIndices_spaced ticks s 0 hI hS hF, ?_, ?_, ?_⟩
  · intro i hi hlen
    exact writeIndices_recur ticks s 0 hI hS hF i hi (by omega)
  · intro hH hlen
    obtain ⟨i, hi, hle⟩ := writeIndices_first ticks s 0 0 (by omega) hI hS hF
      (fun t ht => by simpa using hH t ht) (by omega)
    exact ⟨i, hi, by omega⟩
  · intro hH a
    have P := writeIndices_phase_mem ticks s 0 1 (le_refl 1) (by omega) hI hS hF
      (fun t ht => by rw [hH t ht]; simp) a
    rw [P]
    omega

/-- C8 (amended), on a concrete run of 64 activations started one period after
construction: activation 30 writes, hence so does activation 61, and a first
write exists among the first 32. -/
theorem cadence_thirty_one_witness :
    spacedBy 31 (writeIndicesFrom 0 (runTicks freshNode (cadenceTicks 64)).2) ∧
    61 ∈ writeIndicesFrom 0 (runTicks freshNode (cadenceTicks 64)).2 ∧
    (∃ i ∈ writeIndicesFrom 0 (runTicks freshNode (cadenceTicks 64)).2, i ≤ 31) :=
  ⟨(cadence_thirty_one freshNode (cadenceTicks 64) rfl (by decide) (by decide)).1,
   (cadence_thirty_one freshNode (cadenceTicks 64) rfl (by decide) (by decide)).2.1 30
      (by decide) (by decide),
   (cadence_thirty_one freshNode (cadenceTicks 64) rfl (by decide) (by decide)).2.2.1
      (by decide) (by decide)⟩

/-! ## The saved file -/

theorem fileAfter_append (path : String) (file : Option Mat) (a b : List Effect) :
    fileAfter path file (a ++ b) = fileAfter path (fileAfter path file a) b := by
  simp [fileAfter, List.foldl_append]

/-- The file after one activation: replaced by the frame when the activation is
gated and `imwrite` succeeds, untouched otherwise. -/
theorem fileAfter_tick (s : CameraPublisherNode) (t : TickInput) (file : Option Mat) :
    fileAfter s.save_path_ file (capture_and_publish s t).2 =
      if t.frame.empty = false ∧ gateOpen s t ∧ t.save_success = true then some t.frame
      else file := by
  cases hF : t.frame.empty
  · by_cases hG : gateOpen s t
    · rw [tick_open s t hF hG]
      cases hok : t.save_success <;> simp [fileAfter, fileAfterEffect, hG]
    · rw [tick_closed s t hF hG]
      simp [fileAfter, fileAfterEffect, hG]
  · rw [tick_empty s t hF]
    simp [fileAfter, fileAfterEffect]

theorem tick_save_path (s : CameraPublisherNode) (t : TickInput) :
    (capture_and_publish s t).1.save_path_ = s.save_path_ := by
  rcases tick_step s t with ⟨h1, -⟩ | ⟨-, -, h1, -⟩ <;> rw [h1]

theorem stateBefore_zero (s : CameraPublisherNode) (ticks : List TickInput) :
    stateBefore s ticks 0 = s := rfl

theorem stateBefore_succ (s : CameraPublisherNode) (t : TickInput) (ts : List TickInput)
    (i : Nat) :
    stateBefore s (t :: ts) (i + 1) = stateBefore (capture_and_publish s t).1 ts i := rfl

/-- A run without a gated activation whose `imwrite` succeeds leaves the file alone. -/
theorem fileAfter_run_unchanged (ticks : List TickInput) :
    ∀ (s : CameraPublisherNode) (file : Option Mat),
      (∀ j u, ticks[j]? = some u →
        ¬ (u.frame.empty = false ∧ gateOpen (stateBefore s ticks j) u ∧ u.save_success = true)) →
      fileAfter s.save_path_ file (runTicks s ticks).2.flatten = file := by
  induction ticks with
  | nil => intro s file _; rfl
  | cons t ts ih =>
    intro s file h
    rw [runTicks_cons]
    simp only [List.flatten_cons]
    rw [fileAfter_append, fileAfter_tick]
    have h0 := h 0 t (by simp)
    rw [stateBefore_zero] at h0
    rw [if_neg h0, ← tick_save_path s t]
    apply ih
    intro j u hu
    have := h (j + 1) u (by simpa using hu)
    rwa [stateBefore_succ] at this

theorem fileAfter_run_last (ticks : List TickInput) :
    ∀ (s : CameraPublisherNode) (file : Option Mat) (i : Nat) (t : TickInput),
      ticks[i]? = some t → t.frame.empty = false → gateOpen (stateBefore s ticks i) t →
      t.save_success = true →
      (∀ j u, i < j → ticks[j]? = some u →
        ¬ (u.frame.empty = false ∧ gateOpen (stateBefore s ticks j) u ∧ u.save_success = true)) →
      fileAfter s.save_path_ file (runTicks s ticks).2.flatten = some t.frame := by
  induction ticks with
  | nil => intro s file i t ht; simp at ht
  | cons t0 ts ih =>
    intro s file i t ht hF hG hok hlast
    rw [runTicks_cons]
    simp only [List.flatten_cons]
    rw [fileAfter_append, ← tick_save_path s t0]
    cases i with
    | zero =>
      simp at ht
      subst ht
      rw [stateBefore_zero] at hG
      rw [tick_save_path s t0, fileAfter_tick, if_pos ⟨hF, hG, hok⟩, ← tick_save_path s t0]
      apply fileAfter_run_unchanged
      intro j u hu
      have := hlast (j + 1) u (by omega) (by simpa using hu)
      rwa [stateBefore_succ] at this
    | succ i =>
      apply ih _ _ i t (by simpa using ht) hF
      · rwa [stateBefore_succ] at hG
      · exact hok
      · intro j u hij hu
        have := hlast (j + 1) u (by omega) (by simpa using hu)
        rwa [stateBefore_succ] at this

/-- C9 (as stated, on a concrete run): three gated activations, the first
`imwrite` succeeds and the next two fail; the most recent gated activation is
number 2 with frame [3], the previous gated one is number 1, and the file holds
frame [1], captured at activation 0. -/
theorem file_after_failed_saves_counterexample :
    gatedAt freshNode failingSaves 0 ∧ gatedAt freshNode failingSaves 1 ∧
    gatedAt freshNode failingSaves 2 ∧
    fileAfter freshNode.save_path_ none (runTicks freshNode failingSaves).2.flatten
      = some ⟨[1]⟩ ∧
    fileAfter freshNode.save_path_ none (runTicks freshNode failingSaves).2.flatten
      ≠ some ⟨[3]⟩ := by
  refine ⟨⟨⟨⟨[1]⟩, 1 * oneSecond, true, 0⟩, by simp [failingSaves], rfl, by decide⟩,
    ⟨⟨⟨[2]⟩, 2 * oneSecond, false, 0⟩, by simp [failingSaves], rfl, by decide⟩,
    ⟨⟨⟨[3]⟩, 3 * oneSecond, false, 0⟩, by simp [failingSaves], rfl, by decide⟩,
    by decide, by decide⟩

/-- C9 (amended): if activation `i` of a run is gated and its `imwrite`
succeeds, and no later activation of the run is gated with a successful
`imwrite`, then after the run the file at `save_path_` holds the frame captured
at activation `i`. -/
theorem file_holds_last_saved_frame (s : CameraPublisherNode) (ticks : List TickInput)
    (file : Option Mat) (i : Nat) (t : TickInput)
    (ht : ticks[i]? = some t) (hF : t.frame.empty = false)
    (hG : gateOpen (stateBefore s ticks i) t) (hok : t.save_success = true)
    (hlast : ∀ j u, i < j → ticks[j]? = some u →
      ¬ (u.frame.empty = false ∧ gateOpen (stateBefore s ticks j) u ∧ u.save_success = true)) :
    fileAfter s.save_path_ file (runTicks s ticks).2.flatten = some t.frame :=
  fileAfter_run_last ticks s file i t ht hF hG hok hlast

/-- C9 (amended), on a concrete run: the first save succeeds, the two later ones
fail, and the file keeps the first frame. -/
theorem file_holds_last_saved_frame_witness :
    fileAfter freshNode.save_path_ none (runTicks freshNode failingSaves).2.flatten
      = some ⟨[1]⟩ :=
  file_holds_last_saved_frame freshNode failingSaves none 0 ⟨⟨[1]⟩, 1 * oneSecond, true, 0⟩
    (by simp [failingSaves]) rfl (by decide) rfl
    (by
      intro j u hij hu
      rcases j with _ | _ | _ | j
      · omega
      · simp [failingSaves] at hu; subst hu; simp
      · simp [failingSaves] at hu; subst hu; simp
      · simp [failingSaves] at hu)

end CameraPublisher
